import Mathlib

/-!
Shallow embedding of the threshold-and-metric evaluation engine of
`check_pgsql_server.py` (repository `check_mssql_collection`).

Modelling conventions:
* Python floats are modelled as rationals (`ℚ`); arithmetic claims are about
  real-number values, not binary rounding.
* Python strings are `List Char`; a Python value that may be `None` is an
  `Option`.
* The script is Python-2 flavoured (`cPickle`, text-mode pickle files), so a
  comparison between `None` and a number follows Python 2 ordering: `None`
  is below every number (`None < x` is `True`, `None > x` is `False`).
* A raised Python exception is an `Except.error`; the `NagiosReturn`
  control-flow exception carrying the final report is modelled as the normal
  return value (prefix string, exit code) of `return_nagios`.
* The regular expressions of `is_within_range` are anchored (`^...$`); the
  model treats `$` as end-of-string.
-/

/-- Python exceptions raised by the modelled code paths. -/
inductive PyErr
  | improperFormat   -- `Exception('Improper warning/critical format.')`
  | indexError       -- list subscript out of range
  | keyError         -- dict subscript with a missing key
  | unpicklingError  -- `pickle.load` failure other than `EOFError`
  | zeroDivision     -- float division by zero
  deriving DecidableEq

/-- The character class `[0-9]` of the threshold regexes. -/
def isDigitChar (c : Char) : Bool :=
  decide (48 ≤ c.toNat) && decide (c.toNat ≤ 57)

/-- Numeric value of a digit character. -/
def digitVal (c : Char) : ℕ := c.toNat - 48

/-- Numeric value of a digit string (most significant digit first). -/
def digitsVal (l : List Char) : ℕ :=
  l.foldl (fun a c => 10 * a + digitVal c) 0

/-- Full-string match of `[0-9]+(\.[0-9]+)?` together with the value Python's
`float` gives to the matched text. -/
def parseUFloat (l : List Char) : Option ℚ :=
  if (l.takeWhile isDigitChar).isEmpty then none
  else
    match l.dropWhile isDigitChar with
    | [] => some ((digitsVal (l.takeWhile isDigitChar) : ℚ))
    | c :: fr =>
        if c = '.' then
          if (!fr.isEmpty) && fr.all isDigitChar then
            some ((digitsVal (l.takeWhile isDigitChar) : ℚ) +
                  (digitsVal fr : ℚ) / (10 : ℚ) ^ fr.length)
          else none
        else none

/-- Full-string match of `-?[0-9]+(\.[0-9]+)?` (the `first`/`second` groups of
`is_within_range`) with its `float` value. -/
def parseFloat (l : List Char) : Option ℚ :=
  match l with
  | [] => none
  | c :: rest =>
      if c = '-' then (parseUFloat rest).map (fun q => -q)
      else parseUFloat (c :: rest)

/-- Split a string at its first colon: `splitAtColon (a ++ [:] ++ b) = (a, b)`
whenever `a` is colon-free. -/
def splitAtColon : List Char → Option (List Char × List Char)
  | [] => none
  | c :: rest =>
      if c = ':' then some ([], rest)
      else (splitAtColon rest).map (fun p => (c :: p.1, p.2))

/-- Structural match of the first action regex `^first$`. -/
def matchP1 (s : List Char) : Option ℚ := parseFloat s

/-- Structural match of the second action regex `^first:$`. -/
def matchP2 (s : List Char) : Option ℚ :=
  match splitAtColon s with
  | some (a, []) => parseFloat a
  | _ => none

/-- Structural match of the third action regex `^~:first$`. -/
def matchP3 (s : List Char) : Option ℚ :=
  match s with
  | c1 :: c2 :: rest => if c1 = '~' ∧ c2 = ':' then parseFloat rest else none
  | _ => none

/-- Structural match of the fourth action regex `^first:second$`.  A float
contains no colon, so the separating colon is necessarily the first one. -/
def matchP4 (s : List Char) : Option (ℚ × ℚ) :=
  match splitAtColon s with
  | some (a, b) =>
      match parseFloat a, parseFloat b with
      | some n, some m => some (n, m)
      | _, _ => none
  | none => none

/-- Structural match of the fifth action regex `^@first:second$`. -/
def matchP5 (s : List Char) : Option (ℚ × ℚ) :=
  match s with
  | c :: rest => if c = '@' then matchP4 rest else none
  | [] => none

/-- Python 2 `value < x` where `value` may be `None` (`None` sorts below every
number). -/
def pyLt : Option ℚ → ℚ → Bool
  | none, _ => true
  | some v, x => decide (v < x)

/-- Python 2 `value > x` where `value` may be `None`. -/
def pyGt : Option ℚ → ℚ → Bool
  | none, _ => false
  | some v, x => decide (x < v)

/-- `is_within_range(nagstring, value)`: empty/absent threshold text never
alerts; otherwise the five anchored regexes are tried in order and the first
match's lambda is evaluated; no match raises. -/
def is_within_range (nagstring : Option (List Char)) (value : Option ℚ) :
    Except PyErr Bool :=
  match nagstring with
  | none => .ok false
  | some [] => .ok false
  | some s =>
      match matchP1 s with
      | some n => .ok (pyGt value n || pyLt value 0)
      | none =>
        match matchP2 s with
        | some n => .ok (pyLt value n)
        | none =>
          match matchP3 s with
          | some n => .ok (pyGt value n)
          | none =>
            match matchP4 s with
            | some (n, m) => .ok (pyLt value n || pyGt value m)
            | none =>
              match matchP5 s with
              | some (n, m) => .ok (!(pyLt value n || pyGt value m))
              | none => .error .improperFormat

/-- `return_nagios(options, ...)` reduced to the data the claims are about:
the severity prefix and the exit code carried by the raised `NagiosReturn`.
Critical is evaluated first, then warning, else OK. -/
def return_nagios (warning critical : Option (List Char)) (result : Option ℚ) :
    Except PyErr (String × ℕ) :=
  match is_within_range critical result with
  | .error e => .error e
  | .ok true => .ok ("CRITICAL: ", 2)
  | .ok false =>
      match is_within_range warning result with
      | .error e => .error e
      | .ok true => .ok ("WARNING: ", 1)
      | .ok false => .ok ("OK: ", 0)

/-- Python 2 `round(x, 2)`: round half away from zero to a multiple of
`1/100`. -/
def pyRound2 (x : ℚ) : ℚ :=
  if 0 ≤ x then ((⌊x * 100 + 1 / 2⌋ : ℤ) : ℚ) / 100
  else -(((⌊-x * 100 + 1 / 2⌋ : ℤ) : ℚ) / 100)

/-- The attributes of an `MSSQLQuery` object that `calculate_result` touches:
`query_result` (set by `run_on_connection`), `modifier`, and the `result`
attribute it assigns (`none` while still unset). -/
structure MSSQLQueryS where
  modifier : ℚ
  query_result : ℚ
  result : Option ℚ
  deriving DecidableEq

/-- `MSSQLQuery.calculate_result`:
`self.result = float(self.query_result) * self.modifier`. -/
def MSSQLQuery.calculate_result (s : MSSQLQueryS) : MSSQLQueryS :=
  { s with result := some (s.query_result * s.modifier) }

/-- The attributes of an `MSSQLDivideQuery` object that `calculate_result`
touches; `query_result` is the flattened list of first-column values set by
its `run_on_connection`. -/
structure MSSQLDivideS where
  modifier : ℚ
  query_result : List ℚ
  result : Option ℚ
  deriving DecidableEq

/-- `MSSQLDivideQuery.calculate_result`: if `query_result[1] != 0` the result
is `round((float(query_result[0]) / query_result[1]) * modifier, 2)`, else
`float(query_result[0]) * modifier` (unrounded); fewer than two values raise
`IndexError`. -/
def MSSQLDivideQuery.calculate_result (s : MSSQLDivideS) :
    Except PyErr MSSQLDivideS :=
  match s.query_result with
  | a :: b :: _ =>
      if b ≠ 0 then
        .ok { s with result := some (pyRound2 ((a / b) * s.modifier)) }
      else
        .ok { s with result := some (a * s.modifier) }
  | _ => .error .indexError

/-- The dict `pickle.load` returns for the delta state file.  The outer
`Option` on each field is key presence (a partial record may lack a key); the
inner `Option` on `time` is a stored Python `None`. -/
structure LastRun where
  time : Option (Option ℚ)
  query_result : Option ℚ
  deriving DecidableEq

/-- Possible states of the pickle state file when `calculate_result` opens
it. `missing`: `open` raises `IOError`, an empty file is created and loaded
(so `pickle.load` raises `EOFError`, which the handler catches).
`emptyFile`: same `EOFError` path for an existing empty/truncated file.
`badPickle`: `pickle.load` raises some other error — NOT caught, because
`except EOFError as ValueError` only catches `EOFError` (it binds the name
`ValueError`, it does not catch that type). `good d`: the load returns
dict `d`. -/
inductive PickleFile
  | missing
  | emptyFile
  | badPickle
  | good (d : LastRun)
  deriving DecidableEq

/-- The record `new_run` that is pickled back: both keys always present. -/
structure NewRun where
  time : ℚ
  query_result : ℚ
  deriving DecidableEq

/-- `MSSQLDeltaQuery.calculate_result` as a function of the state file
contents, the two `time.time()` readings (`t_read` inside the compute branch,
`t_write` when building `new_run`), this invocation's `query_result` and the
modifier.  Returns the computed `self.result` (`none` models Python `None`)
and the record written back; a raised exception aborts before the write. -/
def MSSQLDeltaQuery.calculate_result (file : PickleFile)
    (t_read t_write q_res modifier : ℚ) : Except PyErr (Option ℚ × NewRun) :=
  match file with
  | .badPickle => .error .unpicklingError
  | .missing => .ok (none, ⟨t_write, q_res⟩)
  | .emptyFile => .ok (none, ⟨t_write, q_res⟩)
  | .good d =>
      match d.time with
      | none => .error .keyError
      | some none => .ok (none, ⟨t_write, q_res⟩)
      | some (some t0) =>
          if t0 = 0 then .ok (none, ⟨t_write, q_res⟩)
          else
            match d.query_result with
            | none => .error .keyError
            | some v0 =>
                if t_read - t0 = 0 then .error .zeroDivision
                else .ok (some (((q_res - v0) / (t_read - t0)) * modifier),
                          ⟨t_write, q_res⟩)

/-- `MSSQLDeltaQuery.make_pickle_name`:
`'%s/mssql-%s.tmp' % (tempfile.gettempdir(), hash(self.host + self.query))`.
The platform hash (composed with `str`) is an arbitrary function of the
concatenated string. -/
def make_pickle_name (tmpdir : List Char) (hashStr : List Char → List Char)
    (host query : List Char) : List Char :=
  tmpdir ++ "/mssql-".data ++ hashStr (host ++ query) ++ ".tmp".data

/-- `execute_query`: dispatch on `MODES[mode].get('type')`.  Only the `else`
branch (plain `MSSQLQuery`) calls `mssql_query.do(...)`; the `delta` and
`divide` branches construct their object and fall off the end of the
function, so no query runs and no `NagiosReturn` is raised — modelled as
`.ok none` (no report).  The executed `do` is `run_on_connection`
(storing the collaborator's raw scalar), `calculate_result`, then `finish`,
whose `NagiosReturn` report is modelled as `.ok (some report)`. -/
def execute_query (query_type : Option String)
    (warning critical : Option (List Char)) (modifier raw : ℚ) :
    Except PyErr (Option (String × ℕ)) :=
  if query_type = some "delta" then .ok none
  else if query_type = some "divide" then .ok none
  else
    match return_nagios warning critical
        (MSSQLQuery.calculate_result ⟨modifier, raw, none⟩).result with
    | .error e => .error e
    | .ok r => .ok (some r)

/-- Spec-side grammar: a nonempty digit string. -/
def IsDigits (l : List Char) : Prop :=
  l ≠ [] ∧ ∀ c ∈ l, isDigitChar c = true

/-- Spec-side grammar: an unsigned decimal, `[0-9]+` optionally followed by
`.[0-9]+`. -/
def IsUFloatStr (l : List Char) : Prop :=
  IsDigits l ∨ ∃ d f, IsDigits d ∧ IsDigits f ∧ l = d ++ '.' :: f

/-- Spec-side grammar: a signed decimal, an unsigned decimal optionally
preceded by a minus sign. -/
def IsFloatStr (l : List Char) : Prop :=
  IsUFloatStr l ∨ ∃ t, l = '-' :: t ∧ IsUFloatStr t

/-- Spec-side grammar: the five accepted threshold shapes
`N`, `N:`, `~:N`, `N:M`, `@N:M`. -/
def SpecGrammarMatch (s : List Char) : Prop :=
  IsFloatStr s ∨
  (∃ a, IsFloatStr a ∧ s = a ++ [':']) ∨
  (∃ a, IsFloatStr a ∧ s = '~' :: ':' :: a) ∨
  (∃ a b, IsFloatStr a ∧ IsFloatStr b ∧ s = a ++ ':' :: b) ∨
  (∃ a b, IsFloatStr a ∧ IsFloatStr b ∧ s = '@' :: (a ++ ':' :: b))


/-! ### Structural lemmas about the float lexer -/

theorem takeWhile_append_eq {p : Char → Bool} {l : List Char}
    (h : ∀ c ∈ l, p c = true) {x : Char} (hx : p x = false) (r : List Char) :
    (l ++ x :: r).takeWhile p = l := by
  induction l with
  | nil => simp [List.takeWhile_cons_of_neg, hx]
  | cons a t ih =>
      have ha : p a = true := h a (List.mem_cons_self a t)
      simp only [List.cons_append]
      rw [List.takeWhile_cons_of_pos ha,
        ih (fun c hc => h c (List.mem_cons_of_mem _ hc))]

theorem dropWhile_append_eq {p : Char → Bool} {l : List Char}
    (h : ∀ c ∈ l, p c = true) {x : Char} (hx : p x = false) (r : List Char) :
    (l ++ x :: r).dropWhile p = x :: r := by
  induction l with
  | nil => simp [List.dropWhile_cons_of_neg, hx]
  | cons a t ih =>
      have ha : p a = true := h a (List.mem_cons_self a t)
      simp only [List.cons_append]
      rw [List.dropWhile_cons_of_pos ha,
        ih (fun c hc => h c (List.mem_cons_of_mem _ hc))]

theorem isEmpty_false_of_ne_nil {l : List Char} (h : l ≠ []) : l.isEmpty = false := by
  cases l with
  | nil => exact absurd rfl h
  | cons a t => rfl

theorem IsDigits.parseUFloat_eq {d : List Char} (h : IsDigits d) :
    parseUFloat d = some ((digitsVal d : ℚ)) := by
  have ht : d.takeWhile isDigitChar = d := List.takeWhile_eq_self_iff.mpr h.2
  have hd : d.dropWhile isDigitChar = [] := List.dropWhile_eq_nil_iff.mpr h.2
  simp [parseUFloat, ht, hd, isEmpty_false_of_ne_nil h.1]

theorem IsDigits.parseUFloat_frac_eq {d f : List Char} (hd : IsDigits d) (hf : IsDigits f) :
    parseUFloat (d ++ '.' :: f) =
      some ((digitsVal d : ℚ) + (digitsVal f : ℚ) / (10 : ℚ) ^ f.length) := by
  have ht := takeWhile_append_eq hd.2 (show isDigitChar '.' = false from rfl) f
  have hdw := dropWhile_append_eq hd.2 (show isDigitChar '.' = false from rfl) f
  have hfall : f.all isDigitChar = true := List.all_eq_true.mpr hf.2
  simp [parseUFloat, ht, hdw, isEmpty_false_of_ne_nil hd.1,
    isEmpty_false_of_ne_nil hf.1, hfall]

theorem parseUFloat_head_neg {c : Char} (hc : isDigitChar c = false) (t : List Char) :
    parseUFloat (c :: t) = none := by
  have h : (c :: t).takeWhile isDigitChar = [] := by
    rw [List.takeWhile_cons_of_neg (by simp [hc])]
  simp [parseUFloat, h]

theorem parseFloat_cons_of_ne {c : Char} (hc : ¬c = '-') (t : List Char) :
    parseFloat (c :: t) = parseUFloat (c :: t) := by
  simp [parseFloat, hc]

theorem IsUFloatStr.head_digit {l : List Char} (h : IsUFloatStr l) :
    ∃ c t, l = c :: t ∧ isDigitChar c = true := by
  rcases h with ⟨hne, hall⟩ | ⟨d, f, hd, hf, rfl⟩
  · cases l with
    | nil => exact absurd rfl hne
    | cons c t => exact ⟨c, t, rfl, hall c (List.mem_cons_self c t)⟩
  · rcases d with _ | ⟨c, t⟩
    · exact absurd rfl hd.1
    · exact ⟨c, t ++ '.' :: f, by simp, hd.2 c (List.mem_cons_self c t)⟩

theorem IsUFloatStr.parseU {l : List Char} (h : IsUFloatStr l) :
    ∃ n, parseUFloat l = some n := by
  rcases h with hd | ⟨d, f, hd, hf, rfl⟩
  · exact ⟨_, hd.parseUFloat_eq⟩
  · exact ⟨_, hd.parseUFloat_frac_eq hf⟩

theorem IsFloatStr.head_char {l : List Char} (h : IsFloatStr l) :
    ∃ c t, l = c :: t ∧ (c = '-' ∨ isDigitChar c = true) := by
  rcases h with hu | ⟨t, rfl, hu⟩
  · obtain ⟨c, t, rfl, hc⟩ := hu.head_digit
    exact ⟨c, t, rfl, Or.inr hc⟩
  · exact ⟨'-', t, rfl, Or.inl rfl⟩

theorem IsFloatStr.parseF {l : List Char} (h : IsFloatStr l) :
    ∃ n, parseFloat l = some n := by
  rcases h with hu | ⟨t, rfl, hu⟩
  · obtain ⟨c, t, rfl, hc⟩ := hu.head_digit
    have hcm : ¬c = '-' := by
      intro e; subst e; exact absurd hc (by decide)
    rw [parseFloat_cons_of_ne hcm]
    exact hu.parseU
  · obtain ⟨n, hn⟩ := hu.parseU
    exact ⟨-n, by simp [parseFloat, hn]⟩

theorem parseUFloat_isUFloat {l : List Char} {n : ℚ}
    (h : parseUFloat l = some n) : IsUFloatStr l := by
  by_cases he : (l.takeWhile isDigitChar).isEmpty = true
  · simp [parseUFloat, he] at h
  · have hne : l.takeWhile isDigitChar ≠ [] := by
      intro e; rw [e] at he; exact he rfl
    have hdig : ∀ c ∈ l.takeWhile isDigitChar, isDigitChar c = true :=
      fun c hc => List.mem_takeWhile_imp hc
    rcases hdw : l.dropWhile isDigitChar with _ | ⟨c, fr⟩
    · left
      have hl : l.takeWhile isDigitChar = l := by
        have := List.takeWhile_append_dropWhile (p := isDigitChar) (l := l)
        rw [hdw, List.append_nil] at this
        exact this
      refine ⟨?_, ?_⟩
      · intro e
        exact hne (by rw [e, List.takeWhile_nil])
      · intro c hc
        exact hdig c (by rw [hl]; exact hc)
    · simp only [parseUFloat, he, if_false, hdw, Bool.false_eq_true] at h
      by_cases hc : c = '.'
      · subst hc
        simp only [if_pos rfl] at h
        by_cases hcond : ((!fr.isEmpty) && fr.all isDigitChar) = true
        · right
          refine ⟨l.takeWhile isDigitChar, fr, ⟨hne, hdig⟩, ⟨?_, ?_⟩, ?_⟩
          · intro e
            rw [e] at hcond
            simp at hcond
          · intro x hx
            have := (Bool.and_eq_true _ _).mp hcond
            exact List.all_eq_true.mp this.2 x hx
          · have := List.takeWhile_append_dropWhile (p := isDigitChar) (l := l)
            rw [hdw] at this
            exact this.symm
        · rw [if_neg hcond] at h
          exact absurd h (by simp)
      · rw [if_neg hc] at h
        exact absurd h (by simp)

theorem parseFloat_isFloat {l : List Char} {n : ℚ}
    (h : parseFloat l = some n) : IsFloatStr l := by
  rcases l with _ | ⟨c, t⟩
  · simp [parseFloat] at h
  · by_cases hc : c = '-'
    · subst hc
      simp only [parseFloat, if_pos rfl] at h
      rcases ht : parseUFloat t with _ | q
      · rw [ht] at h; simp at h
      · exact Or.inr ⟨t, rfl, parseUFloat_isUFloat ht⟩
    · rw [parseFloat_cons_of_ne hc] at h
      exact Or.inl (parseUFloat_isUFloat h)

theorem IsUFloatStr.chars_mem {l : List Char} (h : IsUFloatStr l) :
    ∀ c ∈ l, isDigitChar c = true ∨ c = '.' := by
  rcases h with hd | ⟨d, f, hd, hf, rfl⟩
  · exact fun c hc => Or.inl (hd.2 c hc)
  · intro c hc
    rcases List.mem_append.mp hc with hm | hm
    · exact Or.inl (hd.2 c hm)
    · rcases List.mem_cons.mp hm with rfl | hm
      · exact Or.inr rfl
      · exact Or.inl (hf.2 c hm)

theorem IsFloatStr.chars_float {l : List Char} (h : IsFloatStr l) :
    ∀ c ∈ l, isDigitChar c = true ∨ c = '.' ∨ c = '-' := by
  rcases h with hu | ⟨t, rfl, hu⟩
  · exact fun c hc => (hu.chars_mem c hc).imp id Or.inl
  · intro c hc
    rcases List.mem_cons.mp hc with rfl | hm
    · exact Or.inr (Or.inr rfl)
    · exact (hu.chars_mem c hm).imp id Or.inl

theorem IsFloatStr.not_colon {l : List Char} (h : IsFloatStr l) : ':' ∉ l := by
  intro hm
  rcases h.chars_float ':' hm with h1 | h1 | h1
  · exact absurd h1 (by decide)
  · exact absurd h1 (by decide)
  · exact absurd h1 (by decide)

theorem IsFloatStr.ne_nil {l : List Char} (h : IsFloatStr l) : l ≠ [] := by
  obtain ⟨c, t, rfl, _⟩ := h.head_char
  simp

theorem IsUFloatStr.parseU_append_colon {u : List Char} (h : IsUFloatStr u) (r : List Char) :
    parseUFloat (u ++ ':' :: r) = none := by
  rcases h with ⟨hne, hall⟩ | ⟨d, f, hd, hf, rfl⟩
  · have ht := takeWhile_append_eq hall (show isDigitChar ':' = false from rfl) r
    have hdw := dropWhile_append_eq hall (show isDigitChar ':' = false from rfl) r
    simp [parseUFloat, ht, hdw, isEmpty_false_of_ne_nil hne]
  · have hre : (d ++ '.' :: f) ++ ':' :: r = d ++ '.' :: (f ++ ':' :: r) := by simp
    rw [hre]
    have ht := takeWhile_append_eq hd.2 (show isDigitChar '.' = false from rfl) (f ++ ':' :: r)
    have hdw := dropWhile_append_eq hd.2 (show isDigitChar '.' = false from rfl) (f ++ ':' :: r)
    have hallf : (f ++ ':' :: r).all isDigitChar = false := by
      rw [List.all_eq_false]
      exact ⟨':', by simp, by decide⟩
    simp [parseUFloat, ht, hdw, isEmpty_false_of_ne_nil hd.1, hallf]

theorem IsFloatStr.parseF_append_colon {a : List Char} (h : IsFloatStr a) (r : List Char) :
    parseFloat (a ++ ':' :: r) = none := by
  rcases h with hu | ⟨t, rfl, hu⟩
  · obtain ⟨c, t, rfl, hc⟩ := hu.head_digit
    have hcm : ¬c = '-' := by
      intro e; subst e; exact absurd hc (by decide)
    rw [List.cons_append, parseFloat_cons_of_ne hcm, ← List.cons_append]
    exact hu.parseU_append_colon r
  · rw [List.cons_append]
    simp [parseFloat, hu.parseU_append_colon r]

theorem splitAtColon_append {a : List Char} (h : ':' ∉ a) (b : List Char) :
    splitAtColon (a ++ ':' :: b) = some (a, b) := by
  induction a with
  | nil => simp [splitAtColon]
  | cons c t ih =>
      have hc : ¬c = ':' := by
        intro e; exact h (e ▸ List.mem_cons_self c t)
      simp [splitAtColon, hc, ih (fun m => h (List.mem_cons_of_mem _ m))]

theorem splitAtColon_eq {s a b : List Char} (h : splitAtColon s = some (a, b)) :
    s = a ++ ':' :: b ∧ ':' ∉ a := by
  induction s generalizing a b with
  | nil => simp [splitAtColon] at h
  | cons c t ih =>
      by_cases hc : c = ':'
      · subst hc
        simp only [splitAtColon, if_pos rfl, Option.some.injEq, Prod.mk.injEq] at h
        obtain ⟨rfl, rfl⟩ := h
        exact ⟨rfl, by simp⟩
      · simp only [splitAtColon, if_neg hc] at h
        rcases ht : splitAtColon t with _ | ⟨x, y⟩
        · rw [ht] at h; simp at h
        · rw [ht] at h
          simp only [Option.map_some', Option.some.injEq, Prod.mk.injEq] at h
          obtain ⟨rfl, rfl⟩ := h
          obtain ⟨h1, h2⟩ := ih ht
          constructor
          · rw [List.cons_append, ← h1]
          · intro hm
            rcases List.mem_cons.mp hm with e | hm
            · exact hc e.symm
            · exact h2 hm

/-! ### Case equations for is_within_range -/

theorem iwr_case1 {s : List Char} {n : ℚ} (h : parseFloat s = some n)
    (value : Option ℚ) :
    is_within_range (some s) value = .ok (pyGt value n || pyLt value 0) := by
  obtain ⟨c, t, rfl, -⟩ := (parseFloat_isFloat h).head_char
  simp [is_within_range, matchP1, h]

theorem iwr_case2 {a : List Char} {n : ℚ} (h : parseFloat a = some n)
    (value : Option ℚ) :
    is_within_range (some (a ++ [':'])) value = .ok (pyLt value n) := by
  have hf := parseFloat_isFloat h
  obtain ⟨c, t, rfl, hc⟩ := hf.head_char
  have h1 : matchP1 ((c :: t) ++ [':']) = none := hf.parseF_append_colon []
  have h2 : matchP2 ((c :: t) ++ [':']) = some n := by
    simp only [matchP2, splitAtColon_append hf.not_colon []]
    exact h
  simp only [List.cons_append] at h1 h2 ⊢
  simp [is_within_range, h1, h2]

theorem iwr_case3 {a : List Char} {n : ℚ} (h : parseFloat a = some n)
    (value : Option ℚ) :
    is_within_range (some ('~' :: ':' :: a)) value = .ok (pyGt value n) := by
  obtain ⟨c, t, rfl, -⟩ := (parseFloat_isFloat h).head_char
  have h1 : matchP1 ('~' :: ':' :: c :: t) = none := by
    rw [matchP1, parseFloat_cons_of_ne (by decide)]
    exact parseUFloat_head_neg (by decide) _
  have h2 : matchP2 ('~' :: ':' :: c :: t) = none := by
    have hs : splitAtColon ('~' :: ':' :: c :: t) = some (['~'], c :: t) := by
      simp [splitAtColon, show ¬('~' = ':') from by decide]
    simp [matchP2, hs]
  have h3 : matchP3 ('~' :: ':' :: c :: t) = some n := by
    simp [matchP3, h]
  simp [is_within_range, h1, h2, h3]

theorem splitAtColon_cons_of_ne {c : Char} (hc : ¬(c = ':')) (rest : List Char) :
    splitAtColon (c :: rest) =
      (splitAtColon rest).map (fun p => (c :: p.1, p.2)) := by
  simp only [splitAtColon, if_neg hc]

theorem iwr_case4 {a b : List Char} {n m : ℚ} (ha : parseFloat a = some n)
    (hb : parseFloat b = some m) (value : Option ℚ) :
    is_within_range (some (a ++ ':' :: b)) value =
      .ok (pyLt value n || pyGt value m) := by
  have hfa := parseFloat_isFloat ha
  have hfb := parseFloat_isFloat hb
  obtain ⟨c1, t1, rfl, hc1⟩ := hfa.head_char
  obtain ⟨c2, t2, rfl, -⟩ := hfb.head_char
  have hc1' : ¬(c1 = '~') := by
    rcases hc1 with rfl | hd
    · decide
    · intro e; rw [e] at hd; exact absurd hd (by decide)
  have hsplit : splitAtColon (c1 :: (t1 ++ ':' :: c2 :: t2)) =
      some (c1 :: t1, c2 :: t2) := by
    simpa using splitAtColon_append hfa.not_colon (c2 :: t2)
  have h1 : matchP1 (c1 :: (t1 ++ ':' :: c2 :: t2)) = none := by
    simpa [matchP1] using hfa.parseF_append_colon (c2 :: t2)
  have h2 : matchP2 (c1 :: (t1 ++ ':' :: c2 :: t2)) = none := by
    simp [matchP2, hsplit]
  have h3 : matchP3 (c1 :: (t1 ++ ':' :: c2 :: t2)) = none := by
    rcases t1 with _ | ⟨c', t'⟩
    · simp [matchP3, hc1']
    · simp [matchP3, hc1']
  have h4 : matchP4 (c1 :: (t1 ++ ':' :: c2 :: t2)) = some (n, m) := by
    simp [matchP4, hsplit, ha, hb]
  simp only [List.cons_append]
  simp [is_within_range, h1, h2, h3, h4]

theorem iwr_case5 {a b : List Char} {n m : ℚ} (ha : parseFloat a = some n)
    (hb : parseFloat b = some m) (value : Option ℚ) :
    is_within_range (some ('@' :: (a ++ ':' :: b))) value =
      .ok (!(pyLt value n || pyGt value m)) := by
  have hfa := parseFloat_isFloat ha
  have hfb := parseFloat_isFloat hb
  obtain ⟨c1, t1, rfl, -⟩ := hfa.head_char
  obtain ⟨c2, t2, rfl, -⟩ := hfb.head_char
  have hsplit : splitAtColon (c1 :: (t1 ++ ':' :: c2 :: t2)) =
      some (c1 :: t1, c2 :: t2) := by
    simpa using splitAtColon_append hfa.not_colon (c2 :: t2)
  have h1 : matchP1 ('@' :: c1 :: (t1 ++ ':' :: c2 :: t2)) = none := by
    rw [matchP1, parseFloat_cons_of_ne (by decide)]
    exact parseUFloat_head_neg (by decide) _
  have hsplit5 : splitAtColon ('@' :: c1 :: (t1 ++ ':' :: c2 :: t2)) =
      some ('@' :: c1 :: t1, c2 :: t2) := by
    rw [splitAtColon_cons_of_ne (show ¬('@' = ':') from by decide), hsplit]
    rfl
  have h2 : matchP2 ('@' :: c1 :: (t1 ++ ':' :: c2 :: t2)) = none := by
    simp [matchP2, hsplit5]
  have h3 : matchP3 ('@' :: c1 :: (t1 ++ ':' :: c2 :: t2)) = none := by
    simp [matchP3, show ¬('@' = '~') from by decide]
  have h4 : matchP4 ('@' :: c1 :: (t1 ++ ':' :: c2 :: t2)) = none := by
    have hpa : parseFloat ('@' :: c1 :: t1) = none := by
      rw [parseFloat_cons_of_ne (by decide)]
      exact parseUFloat_head_neg (by decide) _
    simp [matchP4, hsplit5, hpa]
  have h5 : matchP5 ('@' :: c1 :: (t1 ++ ':' :: c2 :: t2)) = some (n, m) := by
    simp [matchP5, matchP4, hsplit, ha, hb]
  simp only [List.cons_append]
  simp [is_within_range, h1, h2, h3, h4, h5]

theorem iwr_nomatch {s : List Char} (hs : s ≠ []) (h1 : matchP1 s = none)
    (h2 : matchP2 s = none) (h3 : matchP3 s = none) (h4 : matchP4 s = none)
    (h5 : matchP5 s = none) (value : Option ℚ) :
    is_within_range (some s) value = .error .improperFormat := by
  rcases s with _ | ⟨c, t⟩
  · exact absurd rfl hs
  · simp [is_within_range, h1, h2, h3, h4, h5]

/-! ### From code-side matchers to the spec-side grammar -/

theorem specMatch_of_matchP1 {s : List Char} {n : ℚ} (h : matchP1 s = some n) :
    SpecGrammarMatch s :=
  Or.inl (parseFloat_isFloat h)

theorem specMatch_of_matchP2 {s : List Char} {n : ℚ} (h : matchP2 s = some n) :
    SpecGrammarMatch s := by
  simp only [matchP2] at h
  rcases hs : splitAtColon s with _ | ⟨a, b⟩ <;> rw [hs] at h
  · simp at h
  · rcases b with _ | ⟨c, t⟩
    · exact Or.inr (Or.inl ⟨a, parseFloat_isFloat h, (splitAtColon_eq hs).1⟩)
    · simp at h

theorem specMatch_of_matchP3 {s : List Char} {n : ℚ} (h : matchP3 s = some n) :
    SpecGrammarMatch s := by
  rcases s with _ | ⟨c1, s1⟩
  · simp [matchP3] at h
  rcases s1 with _ | ⟨c2, rest⟩
  · simp [matchP3] at h
  simp only [matchP3] at h
  by_cases hc : c1 = '~' ∧ c2 = ':'
  · rw [if_pos hc] at h
    obtain ⟨rfl, rfl⟩ := hc
    exact Or.inr (Or.inr (Or.inl ⟨rest, parseFloat_isFloat h, rfl⟩))
  · rw [if_neg hc] at h
    simp at h

theorem matchP4_struct {s : List Char} {nm : ℚ × ℚ} (h : matchP4 s = some nm) :
    ∃ a b n m, parseFloat a = some n ∧ parseFloat b = some m ∧
      s = a ++ ':' :: b := by
  rcases hs : splitAtColon s with _ | ⟨a, b⟩
  · simp [matchP4, hs] at h
  · rcases hpa : parseFloat a with _ | n
    · simp [matchP4, hs, hpa] at h
    · rcases hpb : parseFloat b with _ | m
      · simp [matchP4, hs, hpa, hpb] at h
      · refine ⟨a, b, n, m, hpa, hpb, (splitAtColon_eq hs).1⟩

theorem specMatch_of_matchP4 {s : List Char} {nm : ℚ × ℚ}
    (h : matchP4 s = some nm) : SpecGrammarMatch s := by
  obtain ⟨a, b, n, m, hpa, hpb, rfl⟩ := matchP4_struct h
  exact Or.inr (Or.inr (Or.inr (Or.inl
    ⟨a, b, parseFloat_isFloat hpa, parseFloat_isFloat hpb, rfl⟩)))

theorem specMatch_of_matchP5 {s : List Char} {nm : ℚ × ℚ}
    (h : matchP5 s = some nm) : SpecGrammarMatch s := by
  rcases s with _ | ⟨c, rest⟩
  · simp [matchP5] at h
  simp only [matchP5] at h
  by_cases hc : c = '@'
  · rw [if_pos hc] at h
    subst hc
    obtain ⟨a, b, n, m, hpa, hpb, rfl⟩ := matchP4_struct h
    exact Or.inr (Or.inr (Or.inr (Or.inr
      ⟨a, b, parseFloat_isFloat hpa, parseFloat_isFloat hpb, rfl⟩)))
  · rw [if_neg hc] at h
    simp at h

theorem iwr_ok_of_specMatch {s : List Char} (h : SpecGrammarMatch s)
    (value : Option ℚ) : ∃ r, is_within_range (some s) value = .ok r := by
  rcases h with hf | ⟨a, hf, rfl⟩ | ⟨a, hf, rfl⟩ | ⟨a, b, hfa, hfb, rfl⟩ |
    ⟨a, b, hfa, hfb, rfl⟩
  · obtain ⟨n, hn⟩ := hf.parseF
    exact ⟨_, iwr_case1 hn value⟩
  · obtain ⟨n, hn⟩ := hf.parseF
    exact ⟨_, iwr_case2 hn value⟩
  · obtain ⟨n, hn⟩ := hf.parseF
    exact ⟨_, iwr_case3 hn value⟩
  · obtain ⟨n, hn⟩ := hfa.parseF
    obtain ⟨m, hm⟩ := hfb.parseF
    exact ⟨_, iwr_case4 hn hm value⟩
  · obtain ⟨n, hn⟩ := hfa.parseF
    obtain ⟨m, hm⟩ := hfb.parseF
    exact ⟨_, iwr_case5 hn hm value⟩

theorem bool_eq_of_iff {x y : Bool} (h : x = true ↔ y = true) : x = y := by
  cases x <;> cases y <;> simp_all

/-! ### Claim theorems -/

/-- Claim C1: the spec says the check runner selects a strategy by kind and
executes it for all three kinds.  In the code, `execute_query` calls
`mssql_query.do(mssql)` only inside the `else` branch, so a mode of type
`delta` or `divide` gets its strategy object constructed but never executed:
no query runs and no report is produced (modelled as `.ok none`), while the
plain kind does run and reports. -/
theorem C1_strategy_not_executed :
    execute_query (some "delta") none (some "5".data) 1 7 = .ok none ∧
    execute_query (some "divide") none (some "5".data) 1 7 = .ok none ∧
    execute_query (some "standard") none (some "5".data) 1 7 =
      .ok (some ("CRITICAL: ", 2)) := by
  refine ⟨rfl, rfl, ?_⟩
  have h7 : (7 : ℚ) * 1 = 7 := mul_one 7
  simp only [execute_query, MSSQLQuery.calculate_result, h7]
  rfl

/-- Claim C2 counterexample: with critical threshold text `5` and an Absent
result, the evaluator reports CRITICAL / exit 2 (Python 2 compares `None`
below every number, so `value < 0` is true), not the OK / exit 0 report the
claim demands. -/
theorem C2_counterexample :
    return_nagios none (some "5".data) none = .ok ("CRITICAL: ", 2) ∧
    (("CRITICAL: ", 2) : String × ℕ) ≠ (("OK: ", 0) : String × ℕ) :=
  ⟨rfl, by decide⟩

/-- Claim C2 (amended): `return_nagios` has no Absent short-circuit: the
absent value goes straight into the range comparisons with `None` ordered
below every number.  Both thresholds absent gives OK / exit 0, but any
critical threshold of the bare-number form `N` classifies an Absent result
as CRITICAL / exit 2. -/
theorem C2_absent_result_evaluation (w : Option (List Char)) (a : List Char)
    (n : ℚ) :
    return_nagios none none none = .ok ("OK: ", 0) ∧
    (parseFloat a = some n →
      return_nagios w (some a) none = .ok ("CRITICAL: ", 2)) := by
  refine ⟨rfl, fun h => ?_⟩
  have hc := iwr_case1 h (none : Option ℚ)
  simp only [pyGt, pyLt, Bool.false_or] at hc
  simp [return_nagios, hc]

theorem C2_absent_result_evaluation_witness :
    return_nagios none none none = .ok ("OK: ", 0) ∧
    return_nagios (some "10".data) (some "5".data) none =
      .ok ("CRITICAL: ", 2) := by
  have h := C2_absent_result_evaluation (some "10".data) "5".data 5
  exact ⟨h.1, h.2 rfl⟩

/-- Claim C3: the Rate strategy returns Absent (`None`, not zero and not an
error) on a fresh identity while still persisting the new sample; every
successful run overwrites the stored record with exactly the current (time,
value) pair; and with a prior sample (a persisted positive timestamp, as
`time.time()` produces, strictly before this reading) the result is
`((new_value - old_value) / (new_time - old_time)) * modifier`. -/
theorem C3_rate_strategy (t_read t_write q_res modifier t0 v0 : ℚ) :
    (MSSQLDeltaQuery.calculate_result .missing t_read t_write q_res modifier =
        .ok (none, ⟨t_write, q_res⟩)) ∧
    (∀ (file : PickleFile) (r : Option ℚ) (nr : NewRun),
        MSSQLDeltaQuery.calculate_result file t_read t_write q_res modifier =
          .ok (r, nr) → nr = ⟨t_write, q_res⟩) ∧
    (0 < t0 → t0 < t_read →
        MSSQLDeltaQuery.calculate_result (.good ⟨some (some t0), some v0⟩)
            t_read t_write q_res modifier =
          .ok (some (((q_res - v0) / (t_read - t0)) * modifier),
               ⟨t_write, q_res⟩)) := by
  refine ⟨rfl, ?_, ?_⟩
  · intro file r nr h
    cases file with
    | badPickle => simp [MSSQLDeltaQuery.calculate_result] at h
    | missing => simp_all [MSSQLDeltaQuery.calculate_result]
    | emptyFile => simp_all [MSSQLDeltaQuery.calculate_result]
    | good d =>
        obtain ⟨dt, dq⟩ := d
        rcases dt with _ | ot
        · simp [MSSQLDeltaQuery.calculate_result] at h
        · rcases ot with _ | t1
          · simp_all [MSSQLDeltaQuery.calculate_result]
          · by_cases h0 : t1 = 0
            · simp_all [MSSQLDeltaQuery.calculate_result]
            · rcases dq with _ | v1
              · simp_all [MSSQLDeltaQuery.calculate_result]
              · by_cases hz : t_read - t1 = 0
                · simp_all [MSSQLDeltaQuery.calculate_result]
                · simp_all [MSSQLDeltaQuery.calculate_result]
  · intro hpos hlt
    have h0 : ¬(t0 = 0) := ne_of_gt hpos
    have hz : ¬(t_read - t0 = 0) := sub_ne_zero.mpr hlt.ne'
    simp [MSSQLDeltaQuery.calculate_result, h0, hz]

theorem C3_rate_strategy_witness :
    MSSQLDeltaQuery.calculate_result (.good ⟨some (some 100), some 7⟩)
        110 110 57 1 = .ok (some 5, ⟨110, 57⟩) := by
  have h := (C3_rate_strategy 110 110 57 1 100 7).2.2 (by norm_num) (by norm_num)
  rw [h]
  norm_num

/-- Claim C4 counterexample: in the `b = 0` fallback branch the result is NOT
rounded to 2 decimal places: `compute([1/200, 0])` with modifier 1 returns
`1/200 = 0.005`, which differs from its own 2-decimal rounding `0.01`. -/
theorem C4_counterexample :
    MSSQLDivideQuery.calculate_result ⟨1, [1 / 200, 0], none⟩ =
      .ok ⟨1, [1 / 200, 0], some (1 / 200)⟩ ∧
    pyRound2 (1 / 200) ≠ (1 / 200 : ℚ) := by
  constructor
  · simp [MSSQLDivideQuery.calculate_result]
  · norm_num [pyRound2]

/-- Claim C4 (amended): the Ratio strategy returns
`round((a / b) * modifier, 2)` when `b` is nonzero and the unrounded
`a * modifier` when `b = 0` (the defined division-by-zero fallback); only
the division branch rounds.  `compute([10,4]) = 2.5` and
`compute([10,0]) = 10`. -/
theorem C4_ratio_strategy (a b modifier : ℚ) (rest : List ℚ) (r : Option ℚ) :
    (b ≠ 0 → MSSQLDivideQuery.calculate_result ⟨modifier, a :: b :: rest, r⟩ =
        .ok ⟨modifier, a :: b :: rest,
             some (pyRound2 ((a / b) * modifier))⟩) ∧
    (b = 0 → MSSQLDivideQuery.calculate_result ⟨modifier, a :: b :: rest, r⟩ =
        .ok ⟨modifier, a :: b :: rest, some (a * modifier)⟩) ∧
    MSSQLDivideQuery.calculate_result ⟨1, [10, 4], none⟩ =
      .ok ⟨1, [10, 4], some (5 / 2)⟩ ∧
    MSSQLDivideQuery.calculate_result ⟨1, [10, 0], none⟩ =
      .ok ⟨1, [10, 0], some 10⟩ := by
  refine ⟨fun hb => ?_, fun hb => ?_, ?_, ?_⟩
  · simp [MSSQLDivideQuery.calculate_result, hb]
  · simp [MSSQLDivideQuery.calculate_result, hb]
  · have h4 : (4 : ℚ) ≠ 0 := by norm_num
    simp only [MSSQLDivideQuery.calculate_result, if_pos h4]
    have : pyRound2 ((10 : ℚ) / 4 * 1) = 5 / 2 := by norm_num [pyRound2]
    rw [this]
  · simp [MSSQLDivideQuery.calculate_result]

theorem C4_ratio_strategy_witness :
    MSSQLDivideQuery.calculate_result ⟨1, [10, 4], none⟩ =
      .ok ⟨1, [10, 4], some (5 / 2)⟩ ∧
    MSSQLDivideQuery.calculate_result ⟨1, [10, 0], none⟩ =
      .ok ⟨1, [10, 0], some 10⟩ ∧
    MSSQLDivideQuery.calculate_result ⟨1, [3, 2], none⟩ =
      .ok ⟨1, [3, 2], some (pyRound2 ((3 / 2) * 1))⟩ := by
  have h32 := C4_ratio_strategy 3 2 1 [] none
  have h10 := C4_ratio_strategy 10 4 1 [] none
  exact ⟨h10.2.2.1, h10.2.2.2, h32.1 (by norm_num)⟩

/-- Claim C5: the evaluator checks the critical spec first (alert gives
CRITICAL / exit 2), then the warning spec (WARNING / exit 1), else OK /
exit 0; in particular a value alerting on both specs reports CRITICAL. -/
theorem C5_evaluator_precedence (w c : Option (List Char)) (v : ℚ) :
    (is_within_range c (some v) = .ok true →
        return_nagios w c (some v) = .ok ("CRITICAL: ", 2)) ∧
    (is_within_range c (some v) = .ok false →
      is_within_range w (some v) = .ok true →
        return_nagios w c (some v) = .ok ("WARNING: ", 1)) ∧
    (is_within_range c (some v) = .ok false →
      is_within_range w (some v) = .ok false →
        return_nagios w c (some v) = .ok ("OK: ", 0)) :=
  ⟨fun h1 => by simp [return_nagios, h1],
   fun h1 h2 => by simp [return_nagios, h1, h2],
   fun h1 h2 => by simp [return_nagios, h1, h2]⟩

theorem C5_evaluator_precedence_witness :
    return_nagios (some "10".data) (some "5".data) (some 20) =
      .ok ("CRITICAL: ", 2) ∧
    is_within_range (some "5".data) (some 20) = .ok true ∧
    is_within_range (some "10".data) (some 20) = .ok true :=
  ⟨(C5_evaluator_precedence (some "10".data) (some "5".data) 20).1 rfl,
   rfl, rfl⟩

/-- Claim C6: the five threshold grammars alert exactly per the table: `N`
alerts iff `v > N` or `v < 0`; `N:` iff `v < N`; `~:N` iff `v > N`; `N:M`
(with `N ≤ M`) iff `v < N` or `v > M`; `@N:M` iff `N ≤ v ≤ M`.  The patterns
are structurally disjoint, so the fixed trying order picks exactly these. -/
theorem C6_range_table (v n m : ℚ) (s a b : List Char) :
    (parseFloat s = some n →
        is_within_range (some s) (some v) = .ok (decide (v > n ∨ v < 0))) ∧
    (parseFloat a = some n →
        is_within_range (some (a ++ [':'])) (some v) = .ok (decide (v < n))) ∧
    (parseFloat a = some n →
        is_within_range (some ('~' :: ':' :: a)) (some v) =
          .ok (decide (v > n))) ∧
    (parseFloat a = some n → parseFloat b = some m → n ≤ m →
        is_within_range (some (a ++ ':' :: b)) (some v) =
          .ok (decide (v < n ∨ v > m))) ∧
    (parseFloat a = some n → parseFloat b = some m →
        is_within_range (some ('@' :: (a ++ ':' :: b))) (some v) =
          .ok (decide (n ≤ v ∧ v ≤ m))) := by
  refine ⟨fun h => ?_, fun h => ?_, fun h => ?_, fun ha hb hnm => ?_,
    fun ha hb => ?_⟩
  · rw [iwr_case1 h]
    congr 1
    exact bool_eq_of_iff (by simp [pyGt, pyLt, gt_iff_lt])
  · rw [iwr_case2 h]
    congr 1
  · rw [iwr_case3 h]
    congr 1
  · rw [iwr_case4 ha hb]
    congr 1
    exact bool_eq_of_iff (by simp [pyLt, pyGt, gt_iff_lt])
  · rw [iwr_case5 ha hb]
    congr 1
    exact bool_eq_of_iff
      (by simp [pyLt, pyGt, Bool.not_eq_true', Bool.or_eq_false_iff,
            decide_eq_false_iff_not, not_lt])

theorem C6_range_table_witness :
    is_within_range (some "10".data) (some 20) = .ok true ∧
    is_within_range (some "10:".data) (some 5) = .ok true ∧
    is_within_range (some "~:10".data) (some 20) = .ok true ∧
    is_within_range (some "5:10".data) (some 3) = .ok true ∧
    is_within_range (some "@5:10".data) (some 7) = .ok true := by
  refine ⟨?_, ?_, ?_, ?_, ?_⟩
  · have h := (C6_range_table 20 10 0 "10".data [] []).1 rfl
    rw [h]; norm_num
  · have e : "10:".data = "10".data ++ [':'] := rfl
    have h := (C6_range_table 5 10 0 [] "10".data []).2.1 rfl
    rw [e, h]; norm_num
  · have e : "~:10".data = '~' :: ':' :: "10".data := rfl
    have h := (C6_range_table 20 10 0 [] "10".data []).2.2.1 rfl
    rw [e, h]; norm_num
  · have e : "5:10".data = "5".data ++ ':' :: "10".data := rfl
    have h := (C6_range_table 3 5 10 [] "5".data "10".data).2.2.2.1 rfl rfl
      (by norm_num)
    rw [e, h]; norm_num
  · have e : "@5:10".data = '@' :: ("5".data ++ ':' :: "10".data) := rfl
    have h := (C6_range_table 7 5 10 [] "5".data "10".data).2.2.2.2 rfl rfl
    rw [e, h]; norm_num

/-- Claim C7: `is_within_range` raises the malformed-range error exactly when
the threshold text is nonempty and matches none of the five grammars, and
absent or empty threshold text yields false (no alert) instead of raising. -/
theorem C7_malformed_range (s : List Char) (v : ℚ) :
    (is_within_range (some s) (some v) = .error .improperFormat ↔
      s ≠ [] ∧ ¬SpecGrammarMatch s) ∧
    is_within_range none (some v) = .ok false ∧
    is_within_range (some []) (some v) = .ok false := by
  refine ⟨⟨?_, ?_⟩, rfl, rfl⟩
  · intro herr
    constructor
    · rintro rfl
      simp [is_within_range] at herr
    · intro hm
      obtain ⟨r, hr⟩ := iwr_ok_of_specMatch hm (some v)
      rw [hr] at herr
      exact absurd herr (by simp)
  · rintro ⟨hs, hm⟩
    refine iwr_nomatch hs ?_ ?_ ?_ ?_ ?_ (some v)
    · cases h1 : matchP1 s with
      | none => exact rfl
      | some n => exact absurd (specMatch_of_matchP1 h1) hm
    · cases h2 : matchP2 s with
      | none => exact rfl
      | some n => exact absurd (specMatch_of_matchP2 h2) hm
    · cases h3 : matchP3 s with
      | none => exact rfl
      | some n => exact absurd (specMatch_of_matchP3 h3) hm
    · cases h4 : matchP4 s with
      | none => exact rfl
      | some nm => exact absurd (specMatch_of_matchP4 h4) hm
    · cases h5 : matchP5 s with
      | none => exact rfl
      | some nm => exact absurd (specMatch_of_matchP5 h5) hm

/-- Claim C8 counterexample: a state file that fails to unpickle with
anything but `EOFError`, or a loaded record lacking the expected keys, makes
the delta computation raise instead of returning Absent: the handler
`except EOFError as ValueError` catches only `EOFError`. -/
theorem C8_counterexample :
    MSSQLDeltaQuery.calculate_result .badPickle 1 2 3 1 =
      .error .unpicklingError ∧
    MSSQLDeltaQuery.calculate_result (.good ⟨none, none⟩) 10 11 3 1 =
      .error .keyError :=
  ⟨rfl, rfl⟩

/-- Claim C8 (amended): a missing state file, and an empty or truncated one
whose load raises `EOFError`, are treated as Absent (first run) with the new
sample still persisted; but any other unpickling failure, or a loaded record
missing an expected key, raises a fault — only `EOFError` is caught. -/
theorem C8_load_behavior (t_read t_write q_res modifier : ℚ) (v : Option ℚ) :
    (MSSQLDeltaQuery.calculate_result .missing t_read t_write q_res modifier =
        .ok (none, ⟨t_write, q_res⟩)) ∧
    (MSSQLDeltaQuery.calculate_result .emptyFile t_read t_write q_res
        modifier = .ok (none, ⟨t_write, q_res⟩)) ∧
    (MSSQLDeltaQuery.calculate_result .badPickle t_read t_write q_res
        modifier = .error .unpicklingError) ∧
    (MSSQLDeltaQuery.calculate_result (.good ⟨none, v⟩) t_read t_write q_res
        modifier = .error .keyError) :=
  ⟨rfl, rfl, rfl, rfl⟩

/-- Claim C9: the Direct and Ratio computations are pure functions of the
raw input and modifier: running `calculate_result` a second time on the
object state produced by a successful first run yields exactly the same
state (the raw `query_result` is never mutated, only `result`). -/
theorem C9_strategies_pure (s : MSSQLQueryS) (d d' : MSSQLDivideS) :
    MSSQLQuery.calculate_result (MSSQLQuery.calculate_result s) =
      MSSQLQuery.calculate_result s ∧
    (MSSQLDivideQuery.calculate_result d = .ok d' →
      MSSQLDivideQuery.calculate_result d' = .ok d') := by
  constructor
  · rfl
  · intro h
    obtain ⟨dm, dq, dr⟩ := d
    rcases dq with _ | ⟨a, q1⟩
    · exact absurd h (by simp [MSSQLDivideQuery.calculate_result])
    · rcases q1 with _ | ⟨b, q2⟩
      · exact absurd h (by simp [MSSQLDivideQuery.calculate_result])
      · by_cases hb : b = 0
        · have h' : MSSQLDivideQuery.calculate_result ⟨dm, a :: b :: q2, dr⟩ =
              .ok ⟨dm, a :: b :: q2, some (a * dm)⟩ := by
            simp [MSSQLDivideQuery.calculate_result, hb]
          rw [h'] at h
          injection h with h2
          subst h2
          simp [MSSQLDivideQuery.calculate_result, hb]
        · have h' : MSSQLDivideQuery.calculate_result ⟨dm, a :: b :: q2, dr⟩ =
              .ok ⟨dm, a :: b :: q2, some (pyRound2 ((a / b) * dm))⟩ := by
            simp [MSSQLDivideQuery.calculate_result, hb]
          rw [h'] at h
          injection h with h2
          subst h2
          simp [MSSQLDivideQuery.calculate_result, hb]

theorem C9_strategies_pure_witness :
    MSSQLQuery.calculate_result (MSSQLQuery.calculate_result ⟨2, 3, none⟩) =
      MSSQLQuery.calculate_result ⟨2, 3, none⟩ ∧
    MSSQLDivideQuery.calculate_result ⟨1, [10, 0], some 10⟩ =
      .ok ⟨1, [10, 0], some 10⟩ := by
  have h := C9_strategies_pure ⟨2, 3, none⟩ ⟨1, [10, 0], none⟩
    ⟨1, [10, 0], some 10⟩
  refine ⟨h.1, h.2 ?_⟩
  simp [MSSQLDivideQuery.calculate_result]

/-- Claim C10: the persisted-state filename is a function of the
concatenation `host + query`, so the distinct identities `(ab, c)` and
`(a, bc)` collide on the same storage slot, whatever hash is used. -/
theorem C10_pickle_name_collision (tmpdir : List Char)
    (hashStr : List Char → List Char) :
    make_pickle_name tmpdir hashStr "ab".data "c".data =
      make_pickle_name tmpdir hashStr "a".data "bc".data ∧
    ("ab".data, "c".data) ≠ (("a".data, "bc".data) : List Char × List Char) :=
  ⟨rfl, by decide⟩
